import Mathlib

/-!
Verification of the training-orchestration core of `pytorch_wrapper/system.py`.

The Python source is shallowly embedded below.  Pure control flow becomes
Lean functions; the mutable training context becomes an explicit `Ctx`
record threaded through the engine; callback hooks become functions
`Ctx → Ctx`; side effects that the specification talks about (optimizer
steps, gradient resets, hook invocations, train/eval mode switches) are
recorded in an explicit event trace so that ordering and counting claims
can be stated.  Fallible operations (`load_model_state`,
`train_on_multi_gpus`) return `Except`.
-/

set_option maxHeartbeats 1000000

namespace PW

/-- Devices a model can reside on (`torch.device`). -/
inductive Device where
  | cpu : Device
  | cuda : Device
  | gpu : Nat → Device
deriving DecidableEq

/-- The device-relevant state of a `System` during `train_on_multi_gpus`:
the facade's recorded device (`self._device`) and how many replication
wrappers (`nn.DataParallel`) the model is currently wrapped in. -/
structure MultiGpuState where
  device : Device
  wrapDepth : Nat
deriving DecidableEq

/-- `System.train_on_multi_gpus` (system.py lines 42-100), projected onto the
device / wrapping state.  The body: assert CUDA is available; wrap the model
in `nn.DataParallel`; remember `temp_device = self._device`; `self.to` the
multi-gpu output device (or `cuda`); run `self.train` (the delegated
training, which may raise -- modelled by `trainRaises`); unwrap
(`self.model = self.model.module`); `self.to(temp_device)`.  There is no
`try/finally`, so an exception inside `self.train` propagates with the state
it left behind (the `Except.error` payload). -/
def trainOnMultiGpus (st : MultiGpuState) (cudaAvailable : Bool)
    (outputDevice : Option Device) (trainRaises : Bool) :
    Except MultiGpuState MultiGpuState :=
  if cudaAvailable = false then Except.error st
  else
    let wrapped : MultiGpuState := { st with wrapDepth := st.wrapDepth + 1 }
    let tempDevice := wrapped.device
    let moved : MultiGpuState := { wrapped with device := outputDevice.getD Device.cuda }
    if trainRaises then Except.error moved
    else
      let unwrapped : MultiGpuState := { moved with wrapDepth := moved.wrapDepth - 1 }
      Except.ok { unwrapped with device := tempDevice }

/-- The state of a `System` relevant to `load_model_state`: where the model's
parameters currently reside, the recorded `self._device`, whether the model
is wrapped in `nn.DataParallel`, and the model's own state-dict keys. -/
structure FacadeState where
  modelDevice : Device
  recordedDevice : Device
  isDataParallel : Bool
  modelKeys : List String
deriving DecidableEq

/-- The `DataParallel` state-dict key namespace. -/
def moduleDot : String := "module."

/-- `System.load_model_state` (system.py lines 338-353): load the state dict
mapped to CPU, add the `module.` key namespace if the model is currently a
`DataParallel` wrapper, call `load_state_dict` (which with `strict=True`
raises on any missing/unexpected key, and otherwise reports them), then move
the model to `self._device`.  `self._device` itself is never written. -/
def loadModelState (st : FacadeState) (stateKeys : List String) (strict : Bool) :
    Except Unit (FacadeState × List String × List String) :=
  let adjusted := if st.isDataParallel then stateKeys.map (fun k => moduleDot ++ k) else stateKeys
  let fullModelKeys :=
    if st.isDataParallel then st.modelKeys.map (fun k => moduleDot ++ k) else st.modelKeys
  let missing := fullModelKeys.filter (fun k => !(adjusted.contains k))
  let unexpected := adjusted.filter (fun k => !(fullModelKeys.contains k))
  if strict && (!missing.isEmpty || !unexpected.isEmpty) then Except.error ()
  else Except.ok ({ st with modelDevice := st.recordedDevice }, missing, unexpected)

/-- Observable actions of `System.evaluate`: switching the model's
train/eval mode, resetting an evaluator, running `predict_batch` on a batch
(recording whether gradient tracking was enabled), feeding an evaluator's
`step`, and asking an evaluator to `calculate`. -/
inductive EvalEvent where
  | setTrainMode : Bool → EvalEvent
  | resetEv : String → EvalEvent
  | predictBatch : Nat → Bool → EvalEvent
  | stepEv : String → Nat → EvalEvent
  | calculateEv : String → EvalEvent
deriving DecidableEq

/-- `System.evaluate` (system.py lines 255-286): `self.model.train(False)`;
`reset()` every evaluator; under `torch.no_grad()` iterate the data loader
calling `predict_batch` and then every evaluator's
`step(outputs, batch, last_activation)`; finally `calculate()` each
evaluator into the result dict.  Returns the event trace together with the
keys of the returned result mapping (the evaluator names, in order). -/
def evaluateSys (evaluatorNames : List String) (nBatches : Nat) :
    List EvalEvent × List String :=
  let resets := evaluatorNames.map EvalEvent.resetEv
  let batchPhase := (List.range nBatches).map
    (fun i => EvalEvent.predictBatch i false :: evaluatorNames.map (fun e => EvalEvent.stepEv e i))
  let calcs := evaluatorNames.map EvalEvent.calculateEv
  (EvalEvent.setTrainMode false :: (resets ++ batchPhase.flatten ++ calcs), evaluatorNames)

/-- The callback hook points of the training engine. -/
inductive Hook where
  | on_training_start
  | on_epoch_start
  | on_batch_start
  | post_predict
  | post_loss_calculation
  | post_backward_calculation
  | pre_optimization_step
  | on_batch_end
  | on_epoch_end
  | on_evaluation_start
  | on_evaluation_end
  | on_training_end
deriving DecidableEq

/-- Observable engine actions: a hook invocation (hook point plus the
zero-based registration index of the callback invoked), `optimizer.step()`,
`optimizer.zero_grad()`, and `model.train(mode)`. -/
inductive TEvent where
  | hookEv : Hook → Nat → TEvent
  | optStep : TEvent
  | zeroGradEv : TEvent
  | modelTrain : Bool → TEvent
deriving DecidableEq

/-- The shared mutable training context (`self.training_context` built in
`_Trainer.__init__`, system.py lines 392-412), plus the train/eval mode bit
of the owned model (reachable from the context through `system`).
History entries are the evaluation-dataset name lists of one epoch. -/
structure Ctx where
  results_history : List (List String)
  stop_training : Bool
  current_epoch : Int
  current_batch : Option Nat
  current_output : Option Nat
  current_loss : Option Nat
  model_train_mode : Bool
deriving DecidableEq

/-- The context as `_Trainer.__init__` builds it (`stop_training = False`,
`_current_epoch = -1`, empty history, transients unset); the model is in
eval mode because `System.__init__` calls `model.train(False)`. -/
def initialCtx : Ctx :=
  { results_history := [], stop_training := false, current_epoch := -1,
    current_batch := none, current_output := none, current_loss := none,
    model_train_mode := false }

/-- A training callback: one function per hook point (default no-ops), plus
whether the object is an instance of `StoppingCriterionCallback` (used by
`_Trainer.__init__` for the capability check). -/
structure TrainingCallback where
  on_training_start : Ctx → Ctx := fun c => c
  on_epoch_start : Ctx → Ctx := fun c => c
  on_batch_start : Ctx → Ctx := fun c => c
  post_predict : Ctx → Ctx := fun c => c
  post_loss_calculation : Ctx → Ctx := fun c => c
  post_backward_calculation : Ctx → Ctx := fun c => c
  pre_optimization_step : Ctx → Ctx := fun c => c
  on_batch_end : Ctx → Ctx := fun c => c
  on_epoch_end : Ctx → Ctx := fun c => c
  on_evaluation_start : Ctx → Ctx := fun c => c
  on_evaluation_end : Ctx → Ctx := fun c => c
  on_training_end : Ctx → Ctx := fun c => c
  isStoppingCriterion : Bool := false

/-- Select a callback's handler for a hook point. -/
def hookFn (cb : TrainingCallback) : Hook → Ctx → Ctx
  | .on_training_start => cb.on_training_start
  | .on_epoch_start => cb.on_epoch_start
  | .on_batch_start => cb.on_batch_start
  | .post_predict => cb.post_predict
  | .post_loss_calculation => cb.post_loss_calculation
  | .post_backward_calculation => cb.post_backward_calculation
  | .pre_optimization_step => cb.pre_optimization_step
  | .on_batch_end => cb.on_batch_end
  | .on_epoch_end => cb.on_epoch_end
  | .on_evaluation_start => cb.on_evaluation_start
  | .on_evaluation_end => cb.on_evaluation_end
  | .on_training_end => cb.on_training_end

/-- `for callback in self.callbacks: callback.<hook>(self.training_context)`
starting at registration index `idx`, recording one event per invocation. -/
def fireHooksFrom (h : Hook) : List TrainingCallback → Nat → Ctx → Ctx × List TEvent
  | [], _, ctx => (ctx, [])
  | cb :: rest, idx, ctx =>
    let res := fireHooksFrom h rest (idx + 1) (hookFn cb h ctx)
    (res.fst, TEvent.hookEv h idx :: res.snd)

/-- Fire a hook point across the whole callback list, in registration order. -/
def fireHooks (h : Hook) (cbs : List TrainingCallback) (ctx : Ctx) : Ctx × List TEvent :=
  fireHooksFrom h cbs 0 ctx

/-- The fields of a `_Trainer` fixed for a run: `len(train_data_loader)`,
the evaluation data-loader names (`None` or a dict's keys), the evaluator
names, the callback list (after `__init__`'s default injection), and
`gradient_accumulation_steps`. -/
structure Trainer where
  nBatches : Nat
  evaluation_data_loaders : Option (List String)
  evaluators : Option (List String)
  callbacks : List TrainingCallback
  gradient_accumulation_steps : Nat

/-- `perform_opt_step` for batch index `i` (system.py line 470):
`(i % self.gradient_accumulation_steps == 0) or
 (i == (len(self.train_data_loader) - 1))`. -/
def performOptStep (i n k : Nat) : Bool :=
  (i % k == 0) || (i == n - 1)

/-- `_Trainer._train_batch` (system.py lines 484-536): publish the batch,
fire `on_batch_start`; forward pass, clear the batch, fire `post_predict`;
compute the loss, clear the output, fire `post_loss_calculation`; backward;
fire `post_backward_calculation`; if this is an optimization boundary fire
`pre_optimization_step` then `optimizer.step()` then
`optimizer.zero_grad()`; fire `on_batch_end`; clear the loss.  The batch,
output and loss tokens are represented by the batch index. -/
def trainBatch (tr : Trainer) (i : Nat) (performStep : Bool) (ctx : Ctx) :
    Ctx × List TEvent :=
  let r1 := fireHooks .on_batch_start tr.callbacks { ctx with current_batch := some i }
  let r2 := fireHooks .post_predict tr.callbacks
    { r1.fst with current_output := some i, current_batch := none }
  let r3 := fireHooks .post_loss_calculation tr.callbacks
    { r2.fst with current_loss := some i, current_output := none }
  let r4 := fireHooks .post_backward_calculation tr.callbacks r3.fst
  let stepPart :=
    if performStep then
      let r5 := fireHooks .pre_optimization_step tr.callbacks r4.fst
      (r5.fst, r5.snd ++ [TEvent.optStep, TEvent.zeroGradEv])
    else (r4.fst, ([] : List TEvent))
  let r6 := fireHooks .on_batch_end tr.callbacks stepPart.fst
  ({ r6.fst with current_loss := none },
    r1.snd ++ r2.snd ++ r3.snd ++ r4.snd ++ stepPart.snd ++ r6.snd)

/-- The batch loop of `_train_epoch` over a list of batch indices. -/
def trainBatches (tr : Trainer) : List Nat → Ctx → Ctx × List TEvent
  | [], ctx => (ctx, [])
  | i :: rest, ctx =>
    let r := trainBatch tr i (performOptStep i tr.nBatches tr.gradient_accumulation_steps) ctx
    let rr := trainBatches tr rest r.fst
    (rr.fst, r.snd ++ rr.snd)

/-- `_Trainer._train_epoch` (system.py lines 444-482): increment
`_current_epoch`; `model.train(True)`; fire `on_epoch_start`;
`optimizer.zero_grad()`; run every batch of the training loader computing
its `perform_opt_step` flag; fire `on_epoch_end`. -/
def trainEpoch (tr : Trainer) (ctx : Ctx) : Ctx × List TEvent :=
  let c1 : Ctx := { ctx with current_epoch := ctx.current_epoch + 1, model_train_mode := true }
  let r1 := fireHooks .on_epoch_start tr.callbacks c1
  let rb := trainBatches tr (List.range tr.nBatches) r1.fst
  let r2 := fireHooks .on_epoch_end tr.callbacks rb.fst
  (r2.fst, TEvent.modelTrain true :: (r1.snd ++ (TEvent.zeroGradEv :: rb.snd) ++ r2.snd))

/-- `_Trainer._train_evaluation` (system.py lines 538-565): only when both
`evaluation_data_loaders` and `evaluators` are not `None`, fire
`on_evaluation_start`; call `System.evaluate` once per evaluation dataset
(each call sets the model to eval mode); append the combined per-dataset
results as one history entry; fire `on_evaluation_end`.  Otherwise do
nothing. -/
def trainEvaluation (tr : Trainer) (ctx : Ctx) : Ctx × List TEvent :=
  match tr.evaluation_data_loaders, tr.evaluators with
  | some dls, some _ =>
    let r1 := fireHooks .on_evaluation_start tr.callbacks ctx
    let cEval : Ctx := if dls.isEmpty then r1.fst else { r1.fst with model_train_mode := false }
    let c2 : Ctx := { cEval with results_history := cEval.results_history ++ [dls] }
    let r2 := fireHooks .on_evaluation_end tr.callbacks c2
    (r2.fst, r1.snd ++ dls.map (fun _ => TEvent.modelTrain false) ++ r2.snd)
  | _, _ => (ctx, [])

/-- One iteration of the `while not stop_training` loop body:
`self._train_epoch(); self._train_evaluation()`. -/
def fullEpoch (tr : Trainer) (ctx : Ctx) : Ctx × List TEvent :=
  let pe := trainEpoch tr ctx
  let pv := trainEvaluation tr pe.fst
  (pv.fst, pe.snd ++ pv.snd)

/-- The context transformer of one loop iteration. -/
def stepCtx (tr : Trainer) (ctx : Ctx) : Ctx :=
  (fullEpoch tr ctx).fst

/-- The `while not self.training_context['stop_training']` loop of
`_Trainer.run`, fuel-bounded; `none` means the loop did not terminate
within `fuel` iterations. -/
def runLoop (tr : Trainer) : Nat → Ctx → Option (Ctx × List TEvent)
  | 0, _ => none
  | Nat.succ fuel, ctx =>
    if ctx.stop_training then some (ctx, [])
    else
      match runLoop tr fuel (fullEpoch tr ctx).fst with
      | none => none
      | some (ctxF, evsF) => some (ctxF, (fullEpoch tr ctx).snd ++ evsF)

/-- The context reached after `on_training_start` has fired on the freshly
built training context. -/
def afterStart (tr : Trainer) : Ctx :=
  (fireHooks .on_training_start tr.callbacks initialCtx).fst

/-- `_Trainer.run` (system.py lines 426-442): fire `on_training_start`;
loop epochs while the halt flag is false; fire `on_training_end`;
`model.train(False)`; return `_results_history`.  The result is the
returned history, the final context, and the event trace. -/
def run (tr : Trainer) (fuel : Nat) : Option (List (List String) × Ctx × List TEvent) :=
  match runLoop tr fuel (afterStart tr) with
  | none => none
  | some (c2, e2) =>
    some ((fireHooks .on_training_end tr.callbacks c2).fst.results_history,
      { (fireHooks .on_training_end tr.callbacks c2).fst with model_train_mode := false },
      (fireHooks .on_training_start tr.callbacks initialCtx).snd ++ e2 ++
        ((fireHooks .on_training_end tr.callbacks c2).snd ++ [TEvent.modelTrain false]))

/-- Modelled from the spec: `NumberOfEpochsStoppingCriterionCallback` from
the `training_callbacks` module, which is not part of the sources at hand
(only its import and construction sites are).  Per the spec it is the
default "stop after N epochs" stopping criterion: a callback that, at
`on_epoch_end`, sets the halt flag once `N` epochs (zero-based epoch
indices `0 .. N-1`) have completed. -/
def numberOfEpochsStoppingCriterionCallback (numEpochs : Nat) : TrainingCallback :=
  { on_epoch_end := fun c =>
      if c.current_epoch + 1 ≥ (numEpochs : Int) then { c with stop_training := true } else c,
    isStoppingCriterion := true }

/-- The callback normalization of `_Trainer.__init__` (system.py lines
421-424): `None` becomes `[NumberOfEpochsStoppingCriterionCallback(1)]`;
a list in which no callback is a `StoppingCriterionCallback` gets a
`NumberOfEpochsStoppingCriterionCallback(1)` appended. -/
def initCallbacks (callbacks : Option (List TrainingCallback)) : List TrainingCallback :=
  match callbacks with
  | none => [numberOfEpochsStoppingCriterionCallback 1]
  | some cbs =>
    if cbs.any (fun cb => cb.isStoppingCriterion) then cbs
    else cbs ++ [numberOfEpochsStoppingCriterionCallback 1]

/-- The same normalization with Python's aliasing made explicit: list
objects live in a store (the heap) and the caller passes a reference
(an index).  `self.callbacks = callbacks` aliases the caller's list, and
`self.callbacks.append(...)` mutates the referenced list in place; only the
`None` case allocates a fresh list.  Returns the updated store and the
reference held by the trainer. -/
def initTrainerCallbacks (store : List (List TrainingCallback)) (callbacksRef : Option Nat) :
    List (List TrainingCallback) × Nat :=
  match callbacksRef with
  | none => (store ++ [[numberOfEpochsStoppingCriterionCallback 1]], store.length)
  | some r =>
    let cbs := store.getD r []
    if cbs.any (fun cb => cb.isStoppingCriterion) then (store, r)
    else (store.set r (cbs ++ [numberOfEpochsStoppingCriterionCallback 1]), r)

/-- One hook point fired across `c` callbacks: one event per callback, in
registration order `0, 1, ..., c-1`. -/
def hookBlock (h : Hook) (c : Nat) : List TEvent :=
  (List.range c).map (fun j => TEvent.hookEv h j)

/-- Same, starting the registration indices at `idx`. -/
def hookBlockFrom (h : Hook) (idx c : Nat) : List TEvent :=
  (List.range c).map (fun j => TEvent.hookEv h (idx + j))

/-- The event trace of one batch step with `c` callbacks, as the spec
orders it. -/
def canonicalBatch (c : Nat) (opt : Bool) : List TEvent :=
  hookBlock .on_batch_start c ++ hookBlock .post_predict c ++
  hookBlock .post_loss_calculation c ++ hookBlock .post_backward_calculation c ++
  (if opt then hookBlock .pre_optimization_step c ++ [TEvent.optStep, TEvent.zeroGradEv]
   else []) ++
  hookBlock .on_batch_end c

/-- The event trace of one `_train_epoch` pass. -/
def canonicalEpoch (tr : Trainer) : List TEvent :=
  TEvent.modelTrain true ::
    (hookBlock .on_epoch_start tr.callbacks.length ++
      (TEvent.zeroGradEv ::
        ((List.range tr.nBatches).map
          (fun i => canonicalBatch tr.callbacks.length
            (performOptStep i tr.nBatches tr.gradient_accumulation_steps))).flatten) ++
      hookBlock .on_epoch_end tr.callbacks.length)

/-- The event trace of one `_train_evaluation` pass: empty unless both
evaluation collaborators are supplied. -/
def canonicalEvaluation (tr : Trainer) : List TEvent :=
  match tr.evaluation_data_loaders, tr.evaluators with
  | some dls, some _ =>
    hookBlock .on_evaluation_start tr.callbacks.length ++
    dls.map (fun _ => TEvent.modelTrain false) ++
    hookBlock .on_evaluation_end tr.callbacks.length
  | _, _ => []

/-- The event trace of one loop iteration of `run`. -/
def canonicalFullEpoch (tr : Trainer) : List TEvent :=
  canonicalEpoch tr ++ canonicalEvaluation tr

/-- The event trace of a whole run that executed `m` epochs. -/
def canonicalRun (tr : Trainer) (m : Nat) : List TEvent :=
  hookBlock .on_training_start tr.callbacks.length ++
  (List.replicate m (canonicalFullEpoch tr)).flatten ++
  (hookBlock .on_training_end tr.callbacks.length ++ [TEvent.modelTrain false])

theorem hookBlockFrom_succ (h : Hook) (idx c : Nat) :
    hookBlockFrom h idx (c + 1) = TEvent.hookEv h idx :: hookBlockFrom h (idx + 1) c := by
  simp only [hookBlockFrom, List.range_succ_eq_map, List.map_cons, List.map_map, Nat.add_zero]
  refine congrArg _ ?_
  apply List.map_congr_left
  intro j _
  simp [Function.comp]
  omega

theorem hookBlockFrom_zero (h : Hook) (c : Nat) :
    hookBlockFrom h 0 c = hookBlock h c := by
  simp [hookBlockFrom, hookBlock]

theorem fireHooksFrom_snd (h : Hook) :
    ∀ (cbs : List TrainingCallback) (idx : Nat) (ctx : Ctx),
      (fireHooksFrom h cbs idx ctx).snd = hookBlockFrom h idx cbs.length
  | [], idx, ctx => by simp [fireHooksFrom, hookBlockFrom]
  | cb :: rest, idx, ctx => by
    simp only [fireHooksFrom, List.length_cons, hookBlockFrom_succ]
    exact congrArg _ (fireHooksFrom_snd h rest (idx + 1) (hookFn cb h ctx))

theorem fireHooks_snd (h : Hook) (cbs : List TrainingCallback) (ctx : Ctx) :
    (fireHooks h cbs ctx).snd = hookBlock h cbs.length := by
  rw [fireHooks, fireHooksFrom_snd, hookBlockFrom_zero]

theorem trainBatch_snd (tr : Trainer) (i : Nat) (p : Bool) (ctx : Ctx) :
    (trainBatch tr i p ctx).snd = canonicalBatch tr.callbacks.length p := by
  cases p <;> simp [trainBatch, canonicalBatch, fireHooks_snd]

theorem trainBatches_snd (tr : Trainer) :
    ∀ (l : List Nat) (ctx : Ctx),
      (trainBatches tr l ctx).snd
        = (l.map (fun i => canonicalBatch tr.callbacks.length
            (performOptStep i tr.nBatches tr.gradient_accumulation_steps))).flatten
  | [], ctx => by simp [trainBatches]
  | i :: rest, ctx => by
    simp only [trainBatches, List.map_cons, List.flatten_cons]
    rw [trainBatch_snd, trainBatches_snd tr rest]

theorem trainEpoch_snd (tr : Trainer) (ctx : Ctx) :
    (trainEpoch tr ctx).snd = canonicalEpoch tr := by
  simp only [trainEpoch, canonicalEpoch]
  rw [fireHooks_snd, fireHooks_snd, trainBatches_snd]

theorem trainEvaluation_snd (tr : Trainer) (ctx : Ctx) :
    (trainEvaluation tr ctx).snd = canonicalEvaluation tr := by
  unfold trainEvaluation canonicalEvaluation
  cases tr.evaluation_data_loaders with
  | none => rfl
  | some dls =>
    cases tr.evaluators with
    | none => rfl
    | some evs => simp [fireHooks_snd]

theorem fullEpoch_snd (tr : Trainer) (ctx : Ctx) :
    (fullEpoch tr ctx).snd = canonicalFullEpoch tr := by
  simp only [fullEpoch, canonicalFullEpoch]
  rw [trainEpoch_snd, trainEvaluation_snd]

theorem count_optStep_hookBlock (h : Hook) (c : Nat) :
    (hookBlock h c).count TEvent.optStep = 0 := by
  apply List.count_eq_zero.mpr
  simp [hookBlock]

theorem count_optStep_canonicalBatch (c : Nat) (p : Bool) :
    (canonicalBatch c p).count TEvent.optStep = if p then 1 else 0 := by
  cases p <;>
    simp [canonicalBatch, List.count_append, count_optStep_hookBlock, List.count_cons]

theorem count_optStep_batchList (c n k : Nat) :
    ∀ l : List Nat,
      ((l.map (fun i => canonicalBatch c (performOptStep i n k))).flatten).count TEvent.optStep
        = (l.filter (fun i => performOptStep i n k)).length
  | [] => by simp
  | i :: rest => by
    simp only [List.map_cons, List.flatten_cons, List.count_append, List.filter_cons]
    rw [count_optStep_canonicalBatch, count_optStep_batchList c n k rest]
    cases hp : performOptStep i n k <;> simp [Nat.add_comm]

theorem count_optStep_trainEpoch (tr : Trainer) (ctx : Ctx) :
    ((trainEpoch tr ctx).snd).count TEvent.optStep
      = ((List.range tr.nBatches).filter
          (fun i => performOptStep i tr.nBatches tr.gradient_accumulation_steps)).length := by
  rw [trainEpoch_snd]
  simp only [canonicalEpoch, List.count_cons, List.count_append]
  rw [count_optStep_batchList]
  simp [count_optStep_hookBlock, List.count_cons]

theorem count_range_multiples (k : Nat) (hk : 1 ≤ k) :
    ∀ m, ((List.range m).filter (fun i => i % k == 0)).length
      = m / k + (if m % k = 0 then 0 else 1)
  | 0 => by simp
  | m + 1 => by
    rw [List.range_succ, List.filter_append, List.length_append,
      count_range_multiples k hk m]
    have hsd := Nat.succ_div m k
    have hdv : k ∣ (m + 1) ↔ (m + 1) % k = 0 := Nat.dvd_iff_mod_eq_zero
    have hflt : (List.filter (fun i => i % k == 0) [m]).length
        = if m % k = 0 then 1 else 0 := by
      by_cases hm0 : m % k = 0 <;> simp [hm0]
    rw [hflt, hsd]
    simp only [hdv]
    generalize m / k = q
    split_ifs <;> omega

theorem boundary_count (n k : Nat) (hn : 1 ≤ n) (hk : 1 ≤ k) :
    ((List.range n).filter (fun i => performOptStep i n k)).length
      = (n - 1) / k + (if (n - 1) % k = 0 then 0 else 1) + 1 := by
  obtain ⟨m, rfl⟩ : ∃ m, n = m + 1 := ⟨n - 1, by omega⟩
  rw [List.range_succ, List.filter_append, List.length_append]
  have h1 : (List.range m).filter (fun i => performOptStep i (m + 1) k)
      = (List.range m).filter (fun i => i % k == 0) := by
    apply List.filter_congr
    intro i hi
    rw [List.mem_range] at hi
    have hne : (i == m) = false := by
      simp only [beq_eq_false_iff_ne]
      omega
    simp [performOptStep, hne]
  have h2 : (m + 1 - 1 : Nat) = m := by omega
  rw [h1, count_range_multiples k hk m, h2]
  have h3 : performOptStep m (m + 1) k = true := by
    simp [performOptStep]
  simp [h3]

theorem runLoop_spec (tr : Trainer) :
    ∀ (fuel : Nat) (ctx ctxF : Ctx) (evs : List TEvent),
      runLoop tr fuel ctx = some (ctxF, evs) →
      ∃ m, m ≤ fuel ∧ ctxF = (stepCtx tr)^[m] ctx ∧
        evs = (List.replicate m (canonicalFullEpoch tr)).flatten ∧
        (∀ j, j < m → ((stepCtx tr)^[j] ctx).stop_training = false) ∧
        ((stepCtx tr)^[m] ctx).stop_training = true
  | 0, ctx, ctxF, evs, h => by simp [runLoop] at h
  | Nat.succ fuel, ctx, ctxF, evs, h => by
    rw [runLoop] at h
    by_cases hs : ctx.stop_training = true
    · rw [if_pos hs] at h
      simp only [Option.some.injEq, Prod.mk.injEq] at h
      obtain ⟨h1, h2⟩ := h
      refine ⟨0, Nat.zero_le _, h1.symm, ?_, ?_, ?_⟩
      · simpa using h2.symm
      · intro j hj; omega
      · simpa using hs
    · rw [if_neg hs] at h
      rw [Bool.not_eq_true] at hs
      cases hr : runLoop tr fuel (fullEpoch tr ctx).fst with
      | none => rw [hr] at h; exact absurd h (by simp)
      | some p =>
        obtain ⟨c', e'⟩ := p
        rw [hr] at h
        simp only [Option.some.injEq, Prod.mk.injEq] at h
        obtain ⟨h1, h2⟩ := h
        obtain ⟨m, hm1, hm2, hm3, hm4, hm5⟩ :=
          runLoop_spec tr fuel (fullEpoch tr ctx).fst c' e' hr
        refine ⟨m + 1, by omega, ?_, ?_, ?_, ?_⟩
        · rw [← h1, hm2, Function.iterate_succ_apply]; rfl
        · rw [← h2, hm3, fullEpoch_snd]
          simp [List.replicate_succ]
        · intro j hj
          cases j with
          | zero => simpa using hs
          | succ j' =>
            rw [Function.iterate_succ_apply]
            exact hm4 j' (by omega)
        · rw [Function.iterate_succ_apply]
          exact hm5

theorem run_spec (tr : Trainer) (fuel : Nat) (hist : List (List String)) (cF : Ctx)
    (evs : List TEvent) (h : run tr fuel = some (hist, cF, evs)) :
    ∃ m, m ≤ fuel ∧
      evs = canonicalRun tr m ∧
      hist = cF.results_history ∧
      cF = { (fireHooks .on_training_end tr.callbacks
                ((stepCtx tr)^[m] (afterStart tr))).fst with model_train_mode := false } ∧
      (∀ j, j < m → ((stepCtx tr)^[j] (afterStart tr)).stop_training = false) ∧
      ((stepCtx tr)^[m] (afterStart tr)).stop_training = true := by
  rw [run] at h
  cases hr : runLoop tr fuel (afterStart tr) with
  | none => rw [hr] at h; exact absurd h (by simp)
  | some p =>
    obtain ⟨c2, e2⟩ := p
    rw [hr] at h
    simp only [Option.some.injEq, Prod.mk.injEq] at h
    obtain ⟨h1, h2, h3⟩ := h
    obtain ⟨m, hm1, hm2, hm3, hm4, hm5⟩ := runLoop_spec tr fuel (afterStart tr) c2 e2 hr
    subst hm2
    refine ⟨m, hm1, ?_, ?_, ?_, hm4, hm5⟩
    · rw [← h3, hm3, canonicalRun, fireHooks_snd, fireHooks_snd]
    · rw [← h1, ← h2]
    · exact h2.symm

/-- A context transformer that leaves the results history unchanged. -/
def PreservesHistory (f : Ctx → Ctx) : Prop :=
  ∀ c, (f c).results_history = c.results_history

/-- A callback whose every hook leaves the results history unchanged
(callbacks are free to mutate everything else, e.g. the halt flag). -/
def HistoryInert (cb : TrainingCallback) : Prop :=
  ∀ h : Hook, PreservesHistory (hookFn cb h)

/-- The persistent part of the context: halt flag, epoch counter, results
history (everything except the transient slots and the model mode). -/
def coreOf (c : Ctx) : Bool × Int × List (List String) :=
  (c.stop_training, c.current_epoch, c.results_history)

/-- A context transformer that leaves the halt flag, the epoch counter and
the results history unchanged. -/
def PreservesCore (f : Ctx → Ctx) : Prop :=
  ∀ c, coreOf (f c) = coreOf c

/-- A callback all of whose hooks preserve the halt flag, the epoch counter
and the results history. -/
def CoreInert (cb : TrainingCallback) : Prop :=
  ∀ h : Hook, PreservesCore (hookFn cb h)

theorem fireHooksFrom_fst_history (h : Hook) :
    ∀ (cbs : List TrainingCallback),
      (∀ cb ∈ cbs, PreservesHistory (hookFn cb h)) →
      ∀ (idx : Nat) (ctx : Ctx),
        (fireHooksFrom h cbs idx ctx).fst.results_history = ctx.results_history
  | [], _, _, _ => rfl
  | cb :: rest, hp, idx, ctx => by
    simp only [fireHooksFrom]
    rw [fireHooksFrom_fst_history h rest
      (fun c hc => hp c (List.mem_cons_of_mem _ hc)) (idx + 1)]
    exact hp cb (List.mem_cons_self _ _) ctx

theorem fireHooks_fst_history (h : Hook) (cbs : List TrainingCallback)
    (hp : ∀ cb ∈ cbs, PreservesHistory (hookFn cb h)) (ctx : Ctx) :
    (fireHooks h cbs ctx).fst.results_history = ctx.results_history :=
  fireHooksFrom_fst_history h cbs hp 0 ctx

theorem fireHooksFrom_fst_core (h : Hook) :
    ∀ (cbs : List TrainingCallback),
      (∀ cb ∈ cbs, PreservesCore (hookFn cb h)) →
      ∀ (idx : Nat), PreservesCore (fun ctx => (fireHooksFrom h cbs idx ctx).fst)
  | [], _, _, _ => rfl
  | cb :: rest, hp, idx, ctx => by
    simp only [fireHooksFrom]
    exact (fireHooksFrom_fst_core h rest
      (fun c hc => hp c (List.mem_cons_of_mem _ hc)) (idx + 1) (hookFn cb h ctx)).trans
      (hp cb (List.mem_cons_self _ _) ctx)

theorem fireHooks_fst_core (h : Hook) (cbs : List TrainingCallback)
    (hp : ∀ cb ∈ cbs, PreservesCore (hookFn cb h)) :
    PreservesCore (fun ctx => (fireHooks h cbs ctx).fst) :=
  fireHooksFrom_fst_core h cbs hp 0

/-- Applying a hook point across a callback list, context only. -/
def applyHooks (h : Hook) (cbs : List TrainingCallback) (ctx : Ctx) : Ctx :=
  cbs.foldl (fun c cb => hookFn cb h c) ctx

theorem fireHooksFrom_fst_applyHooks (h : Hook) :
    ∀ (cbs : List TrainingCallback) (idx : Nat) (ctx : Ctx),
      (fireHooksFrom h cbs idx ctx).fst = applyHooks h cbs ctx
  | [], _, _ => rfl
  | cb :: rest, idx, ctx => by
    simp only [fireHooksFrom, applyHooks, List.foldl_cons]
    exact fireHooksFrom_fst_applyHooks h rest (idx + 1) (hookFn cb h ctx)

theorem fireHooks_fst_applyHooks (h : Hook) (cbs : List TrainingCallback) (ctx : Ctx) :
    (fireHooks h cbs ctx).fst = applyHooks h cbs ctx :=
  fireHooksFrom_fst_applyHooks h cbs 0 ctx

theorem applyHooks_core (h : Hook) (cbs : List TrainingCallback)
    (hp : ∀ cb ∈ cbs, PreservesCore (hookFn cb h)) :
    PreservesCore (applyHooks h cbs) := by
  intro c
  rw [← fireHooks_fst_applyHooks]
  exact fireHooks_fst_core h cbs hp c

/-- The one history entry a loop iteration appends: the evaluation dataset
names when both evaluation collaborators are configured, nothing
otherwise. -/
def entryOf (tr : Trainer) : List (List String) :=
  match tr.evaluation_data_loaders, tr.evaluators with
  | some dls, some _ => [dls]
  | _, _ => []

theorem trainBatch_fst_history (tr : Trainer)
    (hp : ∀ cb ∈ tr.callbacks, HistoryInert cb) (i : Nat) (p : Bool) (ctx : Ctx) :
    (trainBatch tr i p ctx).fst.results_history = ctx.results_history := by
  have hf : ∀ (h : Hook) (c : Ctx),
      (fireHooks h tr.callbacks c).fst.results_history = c.results_history :=
    fun h c => fireHooks_fst_history h tr.callbacks (fun cb hcb => hp cb hcb h) c
  cases p <;> simp [trainBatch, hf]

theorem trainBatches_fst_history (tr : Trainer)
    (hp : ∀ cb ∈ tr.callbacks, HistoryInert cb) :
    ∀ (l : List Nat) (ctx : Ctx),
      (trainBatches tr l ctx).fst.results_history = ctx.results_history
  | [], _ => rfl
  | i :: rest, ctx => by
    simp only [trainBatches]
    rw [trainBatches_fst_history tr hp rest, trainBatch_fst_history tr hp]

theorem trainEpoch_fst_history (tr : Trainer)
    (hp : ∀ cb ∈ tr.callbacks, HistoryInert cb) (ctx : Ctx) :
    (trainEpoch tr ctx).fst.results_history = ctx.results_history := by
  have hf : ∀ (h : Hook) (c : Ctx),
      (fireHooks h tr.callbacks c).fst.results_history = c.results_history :=
    fun h c => fireHooks_fst_history h tr.callbacks (fun cb hcb => hp cb hcb h) c
  simp [trainEpoch, hf, trainBatches_fst_history tr hp]

theorem trainEvaluation_fst_history (tr : Trainer)
    (hp : ∀ cb ∈ tr.callbacks, HistoryInert cb) (ctx : Ctx) :
    (trainEvaluation tr ctx).fst.results_history
      = ctx.results_history ++ entryOf tr := by
  have hf : ∀ (h : Hook) (c : Ctx),
      (fireHooks h tr.callbacks c).fst.results_history = c.results_history :=
    fun h c => fireHooks_fst_history h tr.callbacks (fun cb hcb => hp cb hcb h) c
  unfold trainEvaluation entryOf
  cases tr.evaluation_data_loaders with
  | none => simp
  | some dls =>
    cases tr.evaluators with
    | none => simp
    | some evs =>
      simp only [hf]
      by_cases hde : dls.isEmpty <;> simp [hde, hf]

theorem stepCtx_history (tr : Trainer)
    (hp : ∀ cb ∈ tr.callbacks, HistoryInert cb) (ctx : Ctx) :
    (stepCtx tr ctx).results_history = ctx.results_history ++ entryOf tr := by
  unfold stepCtx fullEpoch
  simp only []
  rw [trainEvaluation_fst_history tr hp, trainEpoch_fst_history tr hp]

theorem iterate_stepCtx_history (tr : Trainer)
    (hp : ∀ cb ∈ tr.callbacks, HistoryInert cb) :
    ∀ (m : Nat) (ctx : Ctx),
      ((stepCtx tr)^[m] ctx).results_history
        = ctx.results_history ++ (List.replicate m (entryOf tr)).flatten
  | 0, ctx => by simp
  | m + 1, ctx => by
    rw [Function.iterate_succ_apply, iterate_stepCtx_history tr hp m,
      stepCtx_history tr hp ctx]
    simp [List.replicate_succ]

theorem flatten_replicate_singleton {α : Type} (a : α) :
    ∀ m, (List.replicate m [a]).flatten = List.replicate m a
  | 0 => rfl
  | m + 1 => by simp [List.replicate_succ, flatten_replicate_singleton a m]

theorem flatten_replicate_nil {α : Type} :
    ∀ m, (List.replicate m ([] : List α)).flatten = []
  | 0 => rfl
  | m + 1 => by simp [List.replicate_succ, flatten_replicate_nil m]

/-- Is an event an invocation of hook point `h`? -/
def isHookOf (h : Hook) : TEvent → Bool
  | TEvent.hookEv hp _ => hp == h
  | _ => false

theorem filter_isHookOf_hookBlock (h hb : Hook) (c : Nat) :
    (hookBlock hb c).filter (isHookOf h) = if hb = h then hookBlock hb c else [] := by
  by_cases he : hb = h
  · subst he
    rw [if_pos rfl]
    apply List.filter_eq_self.mpr
    simp [hookBlock, isHookOf]
  · rw [if_neg he]
    apply List.filter_eq_nil_iff.mpr
    simp [hookBlock, isHookOf]
    intro j _
    simp [he]

theorem filter_trainEnd_canonicalBatch (c : Nat) (p : Bool) :
    (canonicalBatch c p).filter (isHookOf .on_training_end) = [] := by
  cases p <;>
    simp [canonicalBatch, List.filter_append, filter_isHookOf_hookBlock, isHookOf]

theorem filter_trainEnd_batchList (c n k : Nat) :
    ∀ l : List Nat,
      ((l.map (fun i => canonicalBatch c (performOptStep i n k))).flatten).filter
        (isHookOf .on_training_end) = []
  | [] => rfl
  | i :: rest => by
    simp only [List.map_cons, List.flatten_cons, List.filter_append]
    rw [filter_trainEnd_canonicalBatch, filter_trainEnd_batchList c n k rest]
    rfl

theorem filter_trainEnd_canonicalEvaluation (tr : Trainer) :
    (canonicalEvaluation tr).filter (isHookOf .on_training_end) = [] := by
  unfold canonicalEvaluation
  cases tr.evaluation_data_loaders with
  | none => rfl
  | some dls =>
    cases tr.evaluators with
    | none => rfl
    | some evs =>
      simp [List.filter_append, filter_isHookOf_hookBlock, isHookOf,
        List.filter_eq_nil_iff]

theorem filter_trainEnd_canonicalEpoch (tr : Trainer) :
    (canonicalEpoch tr).filter (isHookOf .on_training_end) = [] := by
  unfold canonicalEpoch
  simp only [List.filter_cons, List.filter_append]
  rw [filter_trainEnd_batchList]
  simp [filter_isHookOf_hookBlock, isHookOf]

theorem filter_trainEnd_fullEpoch (tr : Trainer) :
    (canonicalFullEpoch tr).filter (isHookOf .on_training_end) = [] := by
  unfold canonicalFullEpoch
  rw [List.filter_append, filter_trainEnd_canonicalEpoch,
    filter_trainEnd_canonicalEvaluation]
  rfl

theorem filter_trainEnd_replicate (tr : Trainer) :
    ∀ m, (((List.replicate m (canonicalFullEpoch tr)).flatten).filter
      (isHookOf .on_training_end)) = []
  | 0 => rfl
  | m + 1 => by
    simp only [List.replicate_succ, List.flatten_cons, List.filter_append]
    rw [filter_trainEnd_fullEpoch, filter_trainEnd_replicate tr m]
    rfl

theorem coreOf_set_batch (c : Ctx) (x : Option Nat) :
    coreOf { c with current_batch := x } = coreOf c := rfl

theorem coreOf_set_output_batch (c : Ctx) (x y : Option Nat) :
    coreOf { c with current_output := x, current_batch := y } = coreOf c := rfl

theorem coreOf_set_loss_output (c : Ctx) (x y : Option Nat) :
    coreOf { c with current_loss := x, current_output := y } = coreOf c := rfl

theorem coreOf_set_loss (c : Ctx) (x : Option Nat) :
    coreOf { c with current_loss := x } = coreOf c := rfl

theorem coreOf_set_mode (c : Ctx) (b : Bool) :
    coreOf { c with model_train_mode := b } = coreOf c := rfl

/-- Every hook of the default stopping criterion other than `on_epoch_end`
is a no-op. -/
theorem default_hookFn_id (n : Nat) (h : Hook) (hne : h ≠ Hook.on_epoch_end) :
    hookFn (numberOfEpochsStoppingCriterionCallback n) h = fun c => c := by
  cases h <;> first | rfl | exact absurd rfl hne

theorem default_historyInert (n : Nat) :
    HistoryInert (numberOfEpochsStoppingCriterionCallback n) := by
  intro h c
  cases h <;>
    first
      | rfl
      | (simp only [numberOfEpochsStoppingCriterionCallback, hookFn]; split <;> rfl)

/-- In a callback list of the shape `supplied ++ [default criterion]` with
core-inert supplied callbacks, every hook point other than `on_epoch_end`
is core-preserving for every callback. -/
theorem c7_hooks_core (supplied : List TrainingCallback) (n : Nat)
    (hsup : ∀ cb ∈ supplied, CoreInert cb) (h : Hook) (hne : h ≠ Hook.on_epoch_end) :
    ∀ cb ∈ supplied ++ [numberOfEpochsStoppingCriterionCallback n],
      PreservesCore (hookFn cb h) := by
  intro cb hcb
  rcases List.mem_append.mp hcb with hm | hm
  · exact hsup cb hm h
  · rcases List.mem_singleton.mp hm with rfl
    rw [default_hookFn_id n h hne]
    exact fun c => rfl

theorem trainBatch_fst_core (tr : Trainer)
    (hb : ∀ h : Hook, h ≠ Hook.on_epoch_end →
      ∀ cb ∈ tr.callbacks, PreservesCore (hookFn cb h))
    (i : Nat) (p : Bool) (ctx : Ctx) :
    coreOf (trainBatch tr i p ctx).fst = coreOf ctx := by
  have hf : ∀ (h : Hook), h ≠ Hook.on_epoch_end → ∀ (c : Ctx),
      coreOf (fireHooks h tr.callbacks c).fst = coreOf c :=
    fun h hne c => fireHooks_fst_core h tr.callbacks (hb h hne) c
  cases p
  · simp only [trainBatch, Bool.false_eq_true, if_false]
    rw [coreOf_set_loss, hf .on_batch_end (by decide),
      hf .post_backward_calculation (by decide), hf .post_loss_calculation (by decide),
      coreOf_set_loss_output, hf .post_predict (by decide), coreOf_set_output_batch,
      hf .on_batch_start (by decide), coreOf_set_batch]
  · simp only [trainBatch, if_true]
    rw [coreOf_set_loss, hf .on_batch_end (by decide),
      hf .pre_optimization_step (by decide), hf .post_backward_calculation (by decide),
      hf .post_loss_calculation (by decide), coreOf_set_loss_output,
      hf .post_predict (by decide), coreOf_set_output_batch,
      hf .on_batch_start (by decide), coreOf_set_batch]

theorem trainBatches_fst_core (tr : Trainer)
    (hb : ∀ h : Hook, h ≠ Hook.on_epoch_end →
      ∀ cb ∈ tr.callbacks, PreservesCore (hookFn cb h)) :
    ∀ (l : List Nat) (ctx : Ctx), coreOf (trainBatches tr l ctx).fst = coreOf ctx
  | [], _ => rfl
  | i :: rest, ctx => by
    simp only [trainBatches]
    rw [trainBatches_fst_core tr hb rest, trainBatch_fst_core tr hb i]

/-- The core effect of one `_train_epoch` when the callback list is a
core-inert list followed by the default stopping criterion: the epoch
counter goes up by one, the history is untouched, and the halt flag is set
exactly when the new zero-based epoch index reaches the criterion's
bound. -/
theorem trainEpoch_fst_core (tr : Trainer) (supplied : List TrainingCallback) (n : Nat)
    (hcb : tr.callbacks = supplied ++ [numberOfEpochsStoppingCriterionCallback n])
    (hsup : ∀ cb ∈ supplied, CoreInert cb) (ctx : Ctx) :
    coreOf (trainEpoch tr ctx).fst
      = (if ctx.current_epoch + 1 + 1 ≥ (n : Int) then true else ctx.stop_training,
         ctx.current_epoch + 1, ctx.results_history) := by
  have hb : ∀ h : Hook, h ≠ Hook.on_epoch_end →
      ∀ cb ∈ tr.callbacks, PreservesCore (hookFn cb h) := by
    rw [hcb]; exact fun h hne => c7_hooks_core supplied n hsup h hne
  have hf : ∀ (h : Hook), h ≠ Hook.on_epoch_end → ∀ (c : Ctx),
      coreOf (fireHooks h tr.callbacks c).fst = coreOf c :=
    fun h hne c => fireHooks_fst_core h tr.callbacks (hb h hne) c
  have hsupCore : ∀ c, coreOf (applyHooks Hook.on_epoch_end supplied c) = coreOf c :=
    fun c => applyHooks_core Hook.on_epoch_end supplied
      (fun cb hm => hsup cb hm Hook.on_epoch_end) c
  have hdecomp : ∀ c, (fireHooks Hook.on_epoch_end tr.callbacks c).fst
      = hookFn (numberOfEpochsStoppingCriterionCallback n) Hook.on_epoch_end
          (applyHooks Hook.on_epoch_end supplied c) := by
    intro c
    rw [fireHooks_fst_applyHooks, hcb]
    simp only [applyHooks, List.foldl_append, List.foldl_cons, List.foldl_nil]
  simp only [trainEpoch]
  rw [hdecomp]
  generalize hg : applyHooks Hook.on_epoch_end supplied
      (trainBatches tr (List.range tr.nBatches)
        (fireHooks Hook.on_epoch_start tr.callbacks
          { ctx with
            current_epoch := ctx.current_epoch + 1,
            model_train_mode := true }).fst).fst = Y
  have hYcore : coreOf Y
      = (ctx.stop_training, ctx.current_epoch + 1, ctx.results_history) := by
    rw [← hg, hsupCore, trainBatches_fst_core tr hb,
      hf Hook.on_epoch_start (by decide)]
    rfl
  have hYs : Y.stop_training = ctx.stop_training := congrArg (fun p => p.1) hYcore
  have hYe : Y.current_epoch = ctx.current_epoch + 1 :=
    congrArg (fun p => p.2.1) hYcore
  have hYh : Y.results_history = ctx.results_history :=
    congrArg (fun p => p.2.2) hYcore
  simp only [numberOfEpochsStoppingCriterionCallback, hookFn]
  rw [hYe]
  by_cases hcnd : ctx.current_epoch + 1 + 1 ≥ (n : Int)
  · rw [if_pos hcnd, if_pos hcnd]
    show (true, ctx.current_epoch + 1, Y.results_history)
        = (true, ctx.current_epoch + 1, ctx.results_history)
    rw [hYh]
  · rw [if_neg hcnd, if_neg hcnd]
    exact hYcore

/-- The core effect of one `_train_evaluation` when every callback's
evaluation hooks preserve the core: only the history entry is appended. -/
theorem trainEvaluation_fst_core (tr : Trainer)
    (hb : ∀ h : Hook, h ≠ Hook.on_epoch_end →
      ∀ cb ∈ tr.callbacks, PreservesCore (hookFn cb h)) (ctx : Ctx) :
    coreOf (trainEvaluation tr ctx).fst
      = (ctx.stop_training, ctx.current_epoch, ctx.results_history ++ entryOf tr) := by
  have hf : ∀ (h : Hook), h ≠ Hook.on_epoch_end → ∀ (c : Ctx),
      coreOf (fireHooks h tr.callbacks c).fst = coreOf c :=
    fun h hne c => fireHooks_fst_core h tr.callbacks (hb h hne) c
  unfold trainEvaluation entryOf
  cases tr.evaluation_data_loaders with
  | none => simp [coreOf]
  | some dls =>
    cases tr.evaluators with
    | none => simp [coreOf]
    | some evs =>
      simp only []
      rw [hf Hook.on_evaluation_end (by decide)]
      have hc := hf Hook.on_evaluation_start (by decide) ctx
      have hs : (fireHooks Hook.on_evaluation_start tr.callbacks ctx).fst.stop_training
          = ctx.stop_training := congrArg (fun p => p.1) hc
      have he : (fireHooks Hook.on_evaluation_start tr.callbacks ctx).fst.current_epoch
          = ctx.current_epoch := congrArg (fun p => p.2.1) hc
      have hh : (fireHooks Hook.on_evaluation_start tr.callbacks ctx).fst.results_history
          = ctx.results_history := congrArg (fun p => p.2.2) hc
      by_cases hde : dls.isEmpty
      · rw [if_pos hde]
        show ((fireHooks Hook.on_evaluation_start tr.callbacks ctx).fst.stop_training,
            (fireHooks Hook.on_evaluation_start tr.callbacks ctx).fst.current_epoch,
            (fireHooks Hook.on_evaluation_start tr.callbacks ctx).fst.results_history
              ++ [dls])
          = (ctx.stop_training, ctx.current_epoch, ctx.results_history ++ [dls])
        rw [hs, he, hh]
      · rw [if_neg hde]
        show ((fireHooks Hook.on_evaluation_start tr.callbacks ctx).fst.stop_training,
            (fireHooks Hook.on_evaluation_start tr.callbacks ctx).fst.current_epoch,
            (fireHooks Hook.on_evaluation_start tr.callbacks ctx).fst.results_history
              ++ [dls])
          = (ctx.stop_training, ctx.current_epoch, ctx.results_history ++ [dls])
        rw [hs, he, hh]

/-- Core effect of one whole loop iteration in the C7 configuration. -/
theorem stepCtx_fst_core (tr : Trainer) (supplied : List TrainingCallback) (n : Nat)
    (hcb : tr.callbacks = supplied ++ [numberOfEpochsStoppingCriterionCallback n])
    (hsup : ∀ cb ∈ supplied, CoreInert cb) (ctx : Ctx) :
    coreOf (stepCtx tr ctx)
      = (if ctx.current_epoch + 1 + 1 ≥ (n : Int) then true else ctx.stop_training,
         ctx.current_epoch + 1, ctx.results_history ++ entryOf tr) := by
  have hb : ∀ h : Hook, h ≠ Hook.on_epoch_end →
      ∀ cb ∈ tr.callbacks, PreservesCore (hookFn cb h) := by
    rw [hcb]; exact fun h hne => c7_hooks_core supplied n hsup h hne
  unfold stepCtx fullEpoch
  simp only []
  rw [trainEvaluation_fst_core tr hb]
  have hc := trainEpoch_fst_core tr supplied n hcb hsup ctx
  have hs : (trainEpoch tr ctx).fst.stop_training
      = (if ctx.current_epoch + 1 + 1 ≥ (n : Int) then true else ctx.stop_training) :=
    congrArg (fun p => p.1) hc
  have he : (trainEpoch tr ctx).fst.current_epoch = ctx.current_epoch + 1 :=
    congrArg (fun p => p.2.1) hc
  have hh : (trainEpoch tr ctx).fst.results_history = ctx.results_history :=
    congrArg (fun p => p.2.2) hc
  rw [hs, he, hh]

/-! Concrete artifacts used by witnesses and counterexamples. -/

/-- Evaluator name used in the spec's scenario. -/
def accName : String := "acc"

/-- An evaluation dataset name. -/
def valName : String := "val"

/-- A model parameter key. -/
def wKey : String := "weight"

/-- A trainer with `n` training batches, accumulation step `k`, no
evaluation collaborators and no callbacks. -/
def trainerNK (n k : Nat) : Trainer :=
  { nBatches := n, evaluation_data_loaders := none, evaluators := none,
    callbacks := [], gradient_accumulation_steps := k }

/-- A do-nothing callback that is not a stopping criterion. -/
def plainCallback : TrainingCallback := {}

/-- The trainer built by `_Trainer.__init__` from the given collaborators. -/
def mkTrainer (supplied : Option (List TrainingCallback)) (n k : Nat)
    (dls evrs : Option (List String)) : Trainer :=
  { nBatches := n, evaluation_data_loaders := dls, evaluators := evrs,
    callbacks := initCallbacks supplied, gradient_accumulation_steps := k }

/-- A concrete one-batch trainer with evaluation configured and the default
stopping criterion as its only callback. -/
def trW : Trainer :=
  { nBatches := 1, evaluation_data_loaders := some [valName],
    evaluators := some [accName],
    callbacks := [numberOfEpochsStoppingCriterionCallback 1],
    gradient_accumulation_steps := 1 }

/-- The result of running `trW` (fuel 2 is enough for its single epoch). -/
def runW : List (List String) × Ctx × List TEvent :=
  (run trW 2).getD ([], initialCtx, [])

/-- Claim C1 is false as stated: with accumulation step `k = 2` and `n = 2`
batches, the epoch performs 2 optimizer steps (boundaries at indices 0 and
1), not `ceil(n / k) = 1`. -/
theorem claim1_counterexample :
    ¬ ((trainEpoch (trainerNK 2 2) initialCtx).snd).count TEvent.optStep
        = ((trainerNK 2 2).nBatches + (trainerNK 2 2).gradient_accumulation_steps - 1)
          / (trainerNK 2 2).gradient_accumulation_steps := by
  decide

/-- Claim C1 (amended): for every accumulation-step count `k ≥ 1` and every
epoch with `n ≥ 1` batches, one pass of the epoch step invokes the
optimizer's `step()` exactly `ceil((n - 1) / k) + 1` times (written below
with `ceil(a / k) = a / k + (0 or 1)` in natural division); steps happen
exactly at the marked optimization boundaries.  This equals `ceil(n / k)`
only when `k` divides `n - 1`. -/
theorem claim1_step_count (tr : Trainer) (ctx : Ctx)
    (hn : 1 ≤ tr.nBatches) (hk : 1 ≤ tr.gradient_accumulation_steps) :
    ((trainEpoch tr ctx).snd).count TEvent.optStep
      = (tr.nBatches - 1) / tr.gradient_accumulation_steps
        + (if (tr.nBatches - 1) % tr.gradient_accumulation_steps = 0 then 0 else 1)
        + 1 := by
  rw [count_optStep_trainEpoch, boundary_count _ _ hn hk]

/-- Witness for C1 (amended) at `n = 5`, `k = 2`: 3 optimizer steps. -/
theorem claim1_step_count_witness :
    1 ≤ (trainerNK 5 2).nBatches ∧ 1 ≤ (trainerNK 5 2).gradient_accumulation_steps ∧
    ((trainEpoch (trainerNK 5 2) initialCtx).snd).count TEvent.optStep
      = ((trainerNK 5 2).nBatches - 1) / (trainerNK 5 2).gradient_accumulation_steps
        + (if ((trainerNK 5 2).nBatches - 1) % (trainerNK 5 2).gradient_accumulation_steps = 0
           then 0 else 1)
        + 1 :=
  ⟨by decide, by decide, claim1_step_count (trainerNK 5 2) initialCtx (by decide) (by decide)⟩

/-- Claim C2 is false as stated: when the delegated training raises, the
facade's device is NOT restored — the exception escapes with the device
still set to the multi-GPU placement (and the model still wrapped), because
`train_on_multi_gpus` has no `try/finally`. -/
theorem claim2_counterexample :
    trainOnMultiGpus { device := Device.cpu, wrapDepth := 0 } true none true
      = Except.error { device := Device.cuda, wrapDepth := 1 } ∧
    Device.cuda ≠ Device.cpu :=
  ⟨rfl, by decide⟩

/-- Claim C2 (amended): `train_on_multi_gpus` restores the facade's device
(and unwraps the model) on NORMAL completion only; when the delegated
training raises, the facade is left on the multi-GPU output device (or
`cuda`) with the model still wrapped. -/
theorem claim2_device_scope (st : MultiGpuState) (outputDevice : Option Device) :
    (∀ st', trainOnMultiGpus st true outputDevice false = Except.ok st' →
      st'.device = st.device ∧ st'.wrapDepth = st.wrapDepth) ∧
    (∀ st', trainOnMultiGpus st true outputDevice true = Except.error st' →
      st'.device = outputDevice.getD Device.cuda ∧ st'.wrapDepth = st.wrapDepth + 1) := by
  constructor
  · intro st' h
    simp only [trainOnMultiGpus] at h
    rw [if_neg (by simp)] at h
    rw [if_neg (by simp)] at h
    simp only [Except.ok.injEq] at h
    rw [← h]
    exact ⟨rfl, by simp⟩
  · intro st' h
    simp only [trainOnMultiGpus] at h
    rw [if_neg (by simp)] at h
    rw [if_pos trivial] at h
    simp only [Except.error.injEq] at h
    rw [← h]
    exact ⟨rfl, rfl⟩

/-- Witness for C2 (amended): from `gpu 3`, a successful delegated training
returns with device `gpu 3` and the original wrap depth. -/
theorem claim2_device_scope_witness :
    ({ device := Device.gpu 3, wrapDepth := 0 } : MultiGpuState).device = Device.gpu 3
      ∧ ({ device := Device.gpu 3, wrapDepth := 0 } : MultiGpuState).wrapDepth = 0 :=
  (claim2_device_scope { device := Device.gpu 3, wrapDepth := 0 } none).1
    { device := Device.gpu 3, wrapDepth := 0 } rfl

/-- Claim C4: a batch index `i` is an optimization boundary iff
`i % k = 0` or `i` is the last index `n - 1`; the batch step emits exactly
one optimizer step when the boundary flag holds and none otherwise; with
`k = 2` and 5 batches the boundaries are exactly `{0, 2, 4}` and the epoch
performs 3 steps. -/
theorem claim4_boundaries :
    (∀ i n k : Nat, performOptStep i n k = true ↔ (i % k = 0 ∨ i = n - 1)) ∧
    (List.range 5).filter (fun i => performOptStep i 5 2) = [0, 2, 4] ∧
    (∀ (tr : Trainer) (i : Nat) (p : Bool) (ctx : Ctx),
      ((trainBatch tr i p ctx).snd).count TEvent.optStep = if p then 1 else 0) ∧
    ((trainEpoch (trainerNK 5 2) initialCtx).snd).count TEvent.optStep = 3 := by
  refine ⟨?_, by decide, ?_, by decide⟩
  · intro i n k
    simp [performOptStep]
  · intro tr i p ctx
    rw [trainBatch_snd, count_optStep_canonicalBatch]

/-- Claim C9: when the caller passes a (non-empty) callback list containing
no stopping criterion, `_Trainer.__init__` appends the injected default to
the caller's own list object in place: the trainer keeps the caller's
reference, and the referenced list is afterwards one element longer. -/
theorem claim9_callback_append (store : List (List TrainingCallback)) (r : Nat)
    (cbs : List TrainingCallback) (hr : store[r]? = some cbs) (_hne : cbs ≠ [])
    (hns : cbs.any (fun cb => cb.isStoppingCriterion) = false) :
    (initTrainerCallbacks store (some r)).snd = r ∧
    (initTrainerCallbacks store (some r)).fst[r]?
      = some (cbs ++ [numberOfEpochsStoppingCriterionCallback 1]) ∧
    (∀ l, (initTrainerCallbacks store (some r)).fst[r]? = some l →
      l.length = cbs.length + 1) := by
  have hr' : store.get? r = some cbs := by rw [List.get?_eq_getElem?]; exact hr
  have hlt : r < store.length := (List.get?_eq_some.mp hr').1
  have hgd : store.getD r [] = cbs := by simp [List.getD, hr]
  have hset : (store.set r (cbs ++ [numberOfEpochsStoppingCriterionCallback 1]))[r]?
      = some (cbs ++ [numberOfEpochsStoppingCriterionCallback 1]) :=
    List.getElem?_set_self' .. |>.trans (by simp [hlt])
  simp only [initTrainerCallbacks, hgd, hns, Bool.false_eq_true, reduceIte]
  refine ⟨trivial, hset, ?_⟩
  intro l hl
  rw [hset] at hl
  injection hl with hx
  rw [← hx]
  simp

/-- Witness for C9: a one-element heap holding a single plain callback. -/
theorem claim9_callback_append_witness :
    (initTrainerCallbacks [[plainCallback]] (some 0)).snd = 0 ∧
    (initTrainerCallbacks [[plainCallback]] (some 0)).fst[0]?
      = some ([plainCallback] ++ [numberOfEpochsStoppingCriterionCallback 1]) ∧
    (∀ l, (initTrainerCallbacks [[plainCallback]] (some 0)).fst[0]? = some l →
      l.length = [plainCallback].length + 1) :=
  claim9_callback_append [[plainCallback]] 0 [plainCallback] rfl (by simp) rfl

/-- Claim C10: `load_model_state`, on every successful return, has moved
the model to the facade's recorded device, and the recorded device itself
is unchanged. -/
theorem claim10_load_model_state (st : FacadeState) (stateKeys : List String)
    (strict : Bool) (st' : FacadeState) (missing unexpected : List String)
    (h : loadModelState st stateKeys strict = Except.ok (st', missing, unexpected)) :
    st'.modelDevice = st.recordedDevice ∧ st'.recordedDevice = st.recordedDevice := by
  simp only [loadModelState] at h
  split at h <;> split at h <;>
    first
      | exact Except.noConfusion h
      | (simp only [Except.ok.injEq, Prod.mk.injEq] at h
         obtain ⟨h1, _, _⟩ := h
         rw [← h1]
         exact ⟨rfl, rfl⟩)

/-- Witness for C10: a strict load of the matching key set moves a
CPU-resident model back to the recorded `gpu 0`. -/
theorem claim10_load_model_state_witness :
    ({ modelDevice := Device.gpu 0, recordedDevice := Device.gpu 0,
       isDataParallel := false, modelKeys := [wKey] } : FacadeState).modelDevice
        = Device.gpu 0 ∧
    ({ modelDevice := Device.gpu 0, recordedDevice := Device.gpu 0,
       isDataParallel := false, modelKeys := [wKey] } : FacadeState).recordedDevice
        = Device.gpu 0 :=
  claim10_load_model_state
    { modelDevice := Device.cpu, recordedDevice := Device.gpu 0,
      isDataParallel := false, modelKeys := [wKey] }
    [wKey] true
    { modelDevice := Device.gpu 0, recordedDevice := Device.gpu 0,
      isDataParallel := false, modelKeys := [wKey] }
    [] [] rfl

theorem count_range_self (nb i : Nat) (hi : i < nb) : (List.range nb).count i = 1 :=
  List.count_eq_one_of_mem (List.nodup_range _) (List.mem_range.mpr hi)

theorem count_stepEv_blocks (names : List String) (e : String) (i : Nat) :
    ∀ l : List Nat,
      ((l.map (fun j => EvalEvent.predictBatch j false ::
          names.map (fun x => EvalEvent.stepEv x j))).flatten).count (EvalEvent.stepEv e i)
        = (l.count i) * (names.count e)
  | [] => by simp
  | j :: rest => by
    simp only [List.map_cons, List.flatten_cons, List.count_append, List.count_cons]
    rw [count_stepEv_blocks names e i rest]
    by_cases hij : i = j
    · subst hij
      have hmap := List.count_map_of_injective names (fun x => EvalEvent.stepEv x i)
        (fun a b hab => by simpa using hab) e
      rw [hmap]
      have hpb : (EvalEvent.predictBatch i false == EvalEvent.stepEv e i) = false := by
        simp
      have hii : (i == i) = true := by simp
      rw [hpb, hii]
      simp only [if_true, if_false, Bool.false_eq_true, reduceIte]
      ring
    · have hzero : (names.map (fun x => EvalEvent.stepEv x j)).count
          (EvalEvent.stepEv e i) = 0 := by
        apply List.count_eq_zero.mpr
        intro hmem
        rcases List.mem_map.mp hmem with ⟨x, _, heq⟩
        rw [EvalEvent.stepEv.injEq] at heq
        exact hij heq.2.symm
      rw [hzero]
      have hij2 : (j == i) = false := by
        simp only [beq_eq_false_iff_ne, ne_eq]
        exact fun hji => hij hji.symm
      have hpb : (EvalEvent.predictBatch j false == EvalEvent.stepEv e i) = false := by
        simp
      rw [hij2, hpb]
      simp

/-- Claim C8: `System.evaluate` first sets the model to inference mode,
resets every evaluator exactly once, runs `predict_batch` under disabled
gradient tracking for every batch feeding every evaluator's `step` exactly
once per batch, calls `calculate` exactly once per evaluator, returns a
mapping keyed exactly by the evaluator names, and never switches the model
back to training mode.  In the scenario with one evaluator `acc` and a
one-batch source: the result key set is exactly `acc` and `reset`/`step`
were each invoked once. -/
theorem claim8_evaluate :
    (∀ (names : List String) (nb : Nat), names.Nodup →
      (evaluateSys names nb).snd = names ∧
      (evaluateSys names nb).fst.head? = some (EvalEvent.setTrainMode false) ∧
      (∀ e ∈ names, (evaluateSys names nb).fst.count (EvalEvent.resetEv e) = 1) ∧
      (∀ e ∈ names, (evaluateSys names nb).fst.count (EvalEvent.calculateEv e) = 1) ∧
      (∀ e ∈ names, ∀ i, i < nb →
        (evaluateSys names nb).fst.count (EvalEvent.stepEv e i) = 1) ∧
      (∀ i g, EvalEvent.predictBatch i g ∈ (evaluateSys names nb).fst → g = false) ∧
      EvalEvent.setTrainMode true ∉ (evaluateSys names nb).fst) ∧
    (evaluateSys [accName] 1).snd = [accName] ∧
    (evaluateSys [accName] 1).fst.count (EvalEvent.resetEv accName) = 1 ∧
    (evaluateSys [accName] 1).fst.count (EvalEvent.stepEv accName 0) = 1 ∧
    (evaluateSys [accName] 1).fst.count (EvalEvent.calculateEv accName) = 1 := by
  refine ⟨?_, by decide, by decide, by decide, by decide⟩
  intro names nb hnd
  refine ⟨rfl, rfl, ?_, ?_, ?_, ?_, ?_⟩
  · intro e he
    have h1 : ((List.range nb).map (fun j => EvalEvent.predictBatch j false ::
        names.map (fun x => EvalEvent.stepEv x j))).flatten.count (EvalEvent.resetEv e)
        = 0 := by
      apply List.count_eq_zero.mpr
      simp
    have h2 : (names.map EvalEvent.calculateEv).count (EvalEvent.resetEv e) = 0 := by
      apply List.count_eq_zero.mpr
      simp
    simp [evaluateSys, List.count_cons, List.count_append, h1, h2,
      List.count_map_of_injective names EvalEvent.resetEv
        (fun a b hab => by simpa using hab),
      List.count_eq_one_of_mem hnd he]
  · intro e he
    have h1 : ((List.range nb).map (fun j => EvalEvent.predictBatch j false ::
        names.map (fun x => EvalEvent.stepEv x j))).flatten.count (EvalEvent.calculateEv e)
        = 0 := by
      apply List.count_eq_zero.mpr
      simp
    have h2 : (names.map EvalEvent.resetEv).count (EvalEvent.calculateEv e) = 0 := by
      apply List.count_eq_zero.mpr
      simp
    simp [evaluateSys, List.count_cons, List.count_append, h1, h2,
      List.count_map_of_injective names EvalEvent.calculateEv
        (fun a b hab => by simpa using hab),
      List.count_eq_one_of_mem hnd he]
  · intro e he i hi
    have h1 : (names.map EvalEvent.resetEv).count (EvalEvent.stepEv e i) = 0 := by
      apply List.count_eq_zero.mpr
      simp
    have h2 : (names.map EvalEvent.calculateEv).count (EvalEvent.stepEv e i) = 0 := by
      apply List.count_eq_zero.mpr
      simp
    simp [evaluateSys, List.count_cons, List.count_append, h1, h2,
      count_stepEv_blocks, count_range_self nb i hi,
      List.count_eq_one_of_mem hnd he]
  · intro i g hmem
    simp only [evaluateSys, List.mem_cons, List.mem_append, List.mem_map,
      List.mem_flatten] at hmem
    rcases hmem with h0 | hmem
    · exact absurd h0 (by simp)
    rcases hmem with (hres | hbat) | hcal
    · rcases hres with ⟨x, _, heq⟩
      exact absurd heq (by simp)
    · rcases hbat with ⟨lsub, ⟨j, _, rfl⟩, hmem2⟩
      rcases List.mem_cons.mp hmem2 with heq | hmem3
      · simp only [EvalEvent.predictBatch.injEq] at heq
        exact heq.2
      · rcases List.mem_map.mp hmem3 with ⟨x, _, heq⟩
        exact absurd heq (by simp)
    · rcases hcal with ⟨x, _, heq⟩
      exact absurd heq (by simp)
  · simp [evaluateSys]

/-- Witness for C8: concrete instantiation of the universal part at a
two-batch source. -/
theorem claim8_evaluate_witness :
    (evaluateSys [accName] 2).fst.count (EvalEvent.resetEv accName) = 1 :=
  ((claim8_evaluate.1 [accName] 2 (by simp)).2.2.1) accName (by simp)

theorem count_flatten_replicate (a : TEvent) :
    ∀ (m : Nat) (l : List TEvent),
      ((List.replicate m l).flatten).count a = m * l.count a
  | 0, l => by simp
  | m + 1, l => by
    simp only [List.replicate_succ, List.flatten_cons, List.count_append,
      count_flatten_replicate a m l]
    ring

theorem count_mtTrue_hookBlock (h : Hook) (c : Nat) :
    (hookBlock h c).count (TEvent.modelTrain true) = 0 := by
  apply List.count_eq_zero.mpr
  simp [hookBlock]

theorem count_mtTrue_canonicalBatch (c : Nat) (p : Bool) :
    (canonicalBatch c p).count (TEvent.modelTrain true) = 0 := by
  cases p <;>
    simp [canonicalBatch, List.count_append, count_mtTrue_hookBlock, List.count_cons]

theorem count_mtTrue_batchList (c n k : Nat) :
    ∀ l : List Nat,
      ((l.map (fun i => canonicalBatch c (performOptStep i n k))).flatten).count
        (TEvent.modelTrain true) = 0
  | [] => rfl
  | i :: rest => by
    simp only [List.map_cons, List.flatten_cons, List.count_append]
    rw [count_mtTrue_canonicalBatch, count_mtTrue_batchList c n k rest]

theorem count_mtTrue_canonicalEvaluation (tr : Trainer) :
    (canonicalEvaluation tr).count (TEvent.modelTrain true) = 0 := by
  unfold canonicalEvaluation
  cases tr.evaluation_data_loaders with
  | none => rfl
  | some dls =>
    cases tr.evaluators with
    | none => rfl
    | some evs =>
      simp only [List.count_append]
      rw [count_mtTrue_hookBlock, count_mtTrue_hookBlock]
      have hmid : (List.replicate dls.length (TEvent.modelTrain false)).count
          (TEvent.modelTrain true) = 0 := by
        apply List.count_eq_zero.mpr
        simp
      simp [hmid]

theorem count_mtTrue_fullEpoch (tr : Trainer) :
    (canonicalFullEpoch tr).count (TEvent.modelTrain true) = 1 := by
  unfold canonicalFullEpoch canonicalEpoch
  simp only [List.count_append, List.count_cons]
  rw [count_mtTrue_batchList, count_mtTrue_canonicalEvaluation]
  simp [count_mtTrue_hookBlock]

/-- Claim C3: for every completed run, the halt flag is read only at epoch
boundaries: the number of epochs executed is exactly the least `m` at which
the flag reads true (flag false at every earlier boundary, so once a
callback sets it no further epoch starts, and a flag set mid-epoch never
aborts that epoch); `on_training_end` fires exactly once per callback, in
registration order, after all epochs; afterwards the model is in inference
mode and the returned value is the context's results history. -/
theorem claim3_halting (tr : Trainer) (fuel : Nat) (hist : List (List String))
    (cF : Ctx) (evs : List TEvent) (h : run tr fuel = some (hist, cF, evs)) :
    ∃ m,
      (∀ j, j < m → ((stepCtx tr)^[j] (afterStart tr)).stop_training = false) ∧
      ((stepCtx tr)^[m] (afterStart tr)).stop_training = true ∧
      evs.count (TEvent.modelTrain true) = m ∧
      evs.filter (isHookOf .on_training_end)
        = hookBlock .on_training_end tr.callbacks.length ∧
      cF.model_train_mode = false ∧
      hist = cF.results_history := by
  obtain ⟨m, hle, hevs, hhist, hcF, hforall, hflag⟩ := run_spec tr fuel hist cF evs h
  refine ⟨m, hforall, hflag, ?_, ?_, ?_, hhist⟩
  · rw [hevs, canonicalRun]
    simp only [List.count_append]
    rw [count_flatten_replicate, count_mtTrue_fullEpoch, count_mtTrue_hookBlock,
      count_mtTrue_hookBlock]
    simp
  · rw [hevs, canonicalRun]
    simp only [List.filter_append]
    rw [filter_trainEnd_replicate]
    simp [filter_isHookOf_hookBlock, isHookOf]
  · rw [hcF]

/-- Claim C5: the event trace of every completed run is exactly the
canonical trace: `on_training_start` once (each hook point firing its
callbacks in registration order), then per epoch `on_epoch_start`, per
batch `on_batch_start`, `post_predict`, `post_loss_calculation`,
`post_backward_calculation`, `pre_optimization_step` only at optimization
boundaries, `on_batch_end`, then `on_epoch_end`, then the evaluation hooks
only when evaluation is configured, and finally `on_training_end` once. -/
theorem claim5_hook_order (tr : Trainer) (fuel : Nat) (hist : List (List String))
    (cF : Ctx) (evs : List TEvent) (h : run tr fuel = some (hist, cF, evs)) :
    ∃ m, evs = canonicalRun tr m := by
  obtain ⟨m, _, hevs, _, _, _, _⟩ := run_spec tr fuel hist cF evs h
  exact ⟨m, hevs⟩

/-- Claim C6: for every completed run with history-preserving callbacks,
the results history is exactly one appended entry per completed epoch when
both evaluation collaborators are supplied (length = epochs), and empty
when either is absent; its length never exceeds the number of completed
epochs. -/
theorem claim6_history (tr : Trainer) (fuel : Nat) (hist : List (List String))
    (cF : Ctx) (evs : List TEvent) (h : run tr fuel = some (hist, cF, evs))
    (hp : ∀ cb ∈ tr.callbacks, HistoryInert cb) :
    ∃ m, evs = canonicalRun tr m ∧ hist.length ≤ m ∧
      (∀ dls evrs, tr.evaluation_data_loaders = some dls → tr.evaluators = some evrs →
        hist = List.replicate m dls) ∧
      ((tr.evaluation_data_loaders = none ∨ tr.evaluators = none) → hist = []) := by
  obtain ⟨m, hle, hevs, hhist, hcF, hforall, hflag⟩ := run_spec tr fuel hist cF evs h
  have hh2 : hist = (List.replicate m (entryOf tr)).flatten := by
    rw [hhist, hcF]
    show (fireHooks .on_training_end tr.callbacks
      ((stepCtx tr)^[m] (afterStart tr))).fst.results_history = _
    rw [fireHooks_fst_history .on_training_end tr.callbacks
        (fun cb hcb => hp cb hcb .on_training_end),
      iterate_stepCtx_history tr hp]
    rw [afterStart, fireHooks_fst_history .on_training_start tr.callbacks
        (fun cb hcb => hp cb hcb .on_training_start)]
    rfl
  refine ⟨m, hevs, ?_, ?_, ?_⟩
  · rw [hh2]
    cases hdl : tr.evaluation_data_loaders with
    | none => simp [entryOf, hdl, flatten_replicate_nil]
    | some dls =>
      cases hev : tr.evaluators with
      | none => simp [entryOf, hdl, hev, flatten_replicate_nil]
      | some evrs => simp [entryOf, hdl, hev, flatten_replicate_singleton]
  · intro dls evrs hdl hev
    rw [hh2]
    simp [entryOf, hdl, hev, flatten_replicate_singleton]
  · intro hor
    rw [hh2]
    rcases hor with hdl | hev
    · simp [entryOf, hdl, flatten_replicate_nil]
    · cases hdl : tr.evaluation_data_loaders with
      | none => simp [entryOf, hdl, flatten_replicate_nil]
      | some dls => simp [entryOf, hdl, hev, flatten_replicate_nil]

/-- Witness for C3 at the concrete one-epoch trainer `trW`. -/
theorem claim3_halting_witness :
    ∃ m,
      (∀ j, j < m → ((stepCtx trW)^[j] (afterStart trW)).stop_training = false) ∧
      ((stepCtx trW)^[m] (afterStart trW)).stop_training = true ∧
      runW.2.2.count (TEvent.modelTrain true) = m ∧
      runW.2.2.filter (isHookOf .on_training_end)
        = hookBlock .on_training_end trW.callbacks.length ∧
      runW.2.1.model_train_mode = false ∧
      runW.1 = runW.2.1.results_history :=
  claim3_halting trW 2 runW.1 runW.2.1 runW.2.2 rfl

/-- Witness for C5 at the concrete one-epoch trainer `trW`. -/
theorem claim5_hook_order_witness :
    ∃ m, runW.2.2 = canonicalRun trW m :=
  claim5_hook_order trW 2 runW.1 runW.2.1 runW.2.2 rfl

/-- Witness for C6 at the concrete one-epoch trainer `trW`. -/
theorem claim6_history_witness :
    ∃ m, runW.2.2 = canonicalRun trW m ∧ runW.1.length ≤ m ∧
      (∀ dls evrs, trW.evaluation_data_loaders = some dls → trW.evaluators = some evrs →
        runW.1 = List.replicate m dls) ∧
      ((trW.evaluation_data_loaders = none ∨ trW.evaluators = none) → runW.1 = []) :=
  claim6_history trW 2 runW.1 runW.2.1 runW.2.2 rfl
    (by
      intro cb hcb
      rcases List.mem_singleton.mp hcb with rfl
      exact default_historyInert 1)

/-- Claim C7: when the caller supplies no stopping-criterion callback (no
callbacks at all, or a list of core-inert non-stopping callbacks),
`_Trainer.__init__` injects `NumberOfEpochsStoppingCriterionCallback(1)`,
so the run executes exactly one epoch (its trace is the canonical
one-epoch trace) and returns a history of length 1 when both evaluation
collaborators are supplied and of length 0 otherwise. -/
theorem claim7_default_criterion (supplied : Option (List TrainingCallback))
    (n k : Nat) (dls evrs : Option (List String))
    (hsup : ∀ cbs, supplied = some cbs →
      cbs.any (fun cb => cb.isStoppingCriterion) = false ∧ ∀ cb ∈ cbs, CoreInert cb) :
    ∃ hist cF evs,
      run (mkTrainer supplied n k dls evrs) 2 = some (hist, cF, evs) ∧
      evs = canonicalRun (mkTrainer supplied n k dls evrs) 1 ∧
      hist.length = (match dls, evrs with | some _, some _ => 1 | _, _ => 0) := by
  obtain ⟨sl, hsl, hslcore⟩ :
      ∃ sl, initCallbacks supplied = sl ++ [numberOfEpochsStoppingCriterionCallback 1]
        ∧ ∀ cb ∈ sl, CoreInert cb := by
    cases supplied with
    | none => exact ⟨[], rfl, by simp⟩
    | some cbs =>
      obtain ⟨hany, hinert⟩ := hsup cbs rfl
      refine ⟨cbs, ?_, hinert⟩
      simp [initCallbacks, hany]
  set tr := mkTrainer supplied n k dls evrs with htr
  have hcb : tr.callbacks = sl ++ [numberOfEpochsStoppingCriterionCallback 1] := hsl
  have hb : ∀ h : Hook, h ≠ Hook.on_epoch_end →
      ∀ cb ∈ tr.callbacks, PreservesCore (hookFn cb h) := by
    rw [hcb]; exact fun h hne => c7_hooks_core sl 1 hslcore h hne
  have hstart : coreOf (afterStart tr) = (false, -1, []) :=
    fireHooks_fst_core Hook.on_training_start tr.callbacks (hb _ (by decide)) initialCtx
  have hstartS : (afterStart tr).stop_training = false := congrArg (fun p => p.1) hstart
  have hstartE : (afterStart tr).current_epoch = -1 := congrArg (fun p => p.2.1) hstart
  have hstartH : (afterStart tr).results_history = [] := congrArg (fun p => p.2.2) hstart
  have hstep := stepCtx_fst_core tr sl 1 hcb hslcore (afterStart tr)
  rw [hstartS, hstartE, hstartH] at hstep
  norm_num at hstep
  have hstepS : (stepCtx tr (afterStart tr)).stop_training = true :=
    congrArg (fun p => p.1) hstep
  have hstepH : (stepCtx tr (afterStart tr)).results_history = entryOf tr :=
    congrArg (fun p => p.2.2) hstep
  have hloop : runLoop tr 2 (afterStart tr)
      = some (stepCtx tr (afterStart tr), canonicalFullEpoch tr) := by
    show runLoop tr (Nat.succ (Nat.succ 0)) (afterStart tr) = _
    rw [runLoop]
    rw [if_neg (by rw [hstartS]; simp)]
    rw [runLoop]
    rw [if_pos (show (fullEpoch tr (afterStart tr)).fst.stop_training = true from hstepS)]
    simp [stepCtx, fullEpoch_snd]
  refine ⟨(fireHooks .on_training_end tr.callbacks
      (stepCtx tr (afterStart tr))).fst.results_history,
    { (fireHooks .on_training_end tr.callbacks (stepCtx tr (afterStart tr))).fst with
        model_train_mode := false },
    (fireHooks .on_training_start tr.callbacks initialCtx).snd ++ canonicalFullEpoch tr ++
      ((fireHooks .on_training_end tr.callbacks (stepCtx tr (afterStart tr))).snd
        ++ [TEvent.modelTrain false]),
    ?_, ?_, ?_⟩
  · rw [run, hloop]
  · rw [fireHooks_snd, fireHooks_snd, canonicalRun]
    simp
  · have hh : (fireHooks .on_training_end tr.callbacks
        (stepCtx tr (afterStart tr))).fst.results_history = entryOf tr := by
      have hc := fireHooks_fst_core Hook.on_training_end tr.callbacks (hb _ (by decide))
        (stepCtx tr (afterStart tr))
      exact (congrArg (fun p => p.2.2) hc).trans hstepH
    rw [hh]
    cases dls <;> cases evrs <;> simp [entryOf, htr, mkTrainer]

/-- Witness for C7: no callbacks supplied, one batch, evaluation
configured. -/
theorem claim7_default_criterion_witness :
    ∃ hist cF evs,
      run (mkTrainer none 1 1 (some [valName]) (some [accName])) 2
        = some (hist, cF, evs) ∧
      evs = canonicalRun (mkTrainer none 1 1 (some [valName]) (some [accName])) 1 ∧
      hist.length = 1 :=
  claim7_default_criterion none 1 1 (some [valName]) (some [accName])
    (fun _ h => nomatch h)

end PW
